import Mathlib

/-!
Verification of the caption timing/animation core of a video-caption editor.

The development shallowly embeds the core operations of the application:
the caption split operator (`handleSplitSubtitle` from `App.tsx`), the
timeline drag/resize arithmetic (`handlePointerMove` from
`components/Timeline.tsx`), and the active-chunk / active-word / animation
phase computations of the renderer (`drawFrame` and `drawText` from
`components/VideoCanvas.tsx`).  Real-valued seconds are modelled as
rationals, so every clamp and proportion computation is exact; text is
modelled as a list of characters, with `substring`, `trim` and
`split(' ')` embedded character by character.
-/

/-- A caption chunk: `SubtitleChunk` from `types.ts` (`id`, `text`,
`start`/`end` in seconds). -/
structure SubtitleChunk where
  id : String
  text : List Char
  start : ℚ
  «end» : ℚ
deriving DecidableEq

/-- Characters removed by JavaScript `String.prototype.trim` (ASCII range). -/
def isWsChar (c : Char) : Bool :=
  c = ' ' || c = '\t' || c = '\n' || c = '\r'

/-- JavaScript `s.trim()`: strip whitespace from both ends. -/
def trimChars (s : List Char) : List Char :=
  ((s.dropWhile isWsChar).reverse.dropWhile isWsChar).reverse

/-- The body of `handleSplitSubtitle` (`App.tsx` lines 94-117) acting on one
chunk: `none` means the guards rejected the request (silent no-op), `some`
returns the two replacement chunks.  The fresh id of the right chunk
(`sub-${Date.now()}-split` in the source) is passed in as `newId`. -/
def splitChunk (newId : String) (sub : SubtitleChunk) (cursorIndex : ℤ) :
    Option (SubtitleChunk × SubtitleChunk) :=
  if cursorIndex ≤ 0 ∨ (sub.text.length : ℤ) ≤ cursorIndex then none
  else
    let text1 := trimChars (sub.text.take cursorIndex.toNat)
    let text2 := trimChars (sub.text.drop cursorIndex.toNat)
    if text1 = [] ∨ text2 = [] then none
    else
      let totalDuration := sub.«end» - sub.start
      let splitRatio := (cursorIndex : ℚ) / (sub.text.length : ℚ)
      let splitTime := sub.start + totalDuration * splitRatio
      some ({ sub with text := text1, «end» := splitTime },
            { id := newId, text := text2, start := splitTime, «end» := sub.«end» })

/-- `handleSplitSubtitle` (`App.tsx` lines 88-122): find the first chunk with
the given id; if the split guards reject, return the list unchanged,
otherwise splice the two replacement chunks in at its position. -/
def handleSplitSubtitle (newId targetId : String) (cursorIndex : ℤ) :
    List SubtitleChunk → List SubtitleChunk
  | [] => []
  | sub :: rest =>
    if sub.id = targetId then
      match splitChunk newId sub cursorIndex with
      | none => sub :: rest
      | some (a, b) => a :: b :: rest
    else sub :: handleSplitSubtitle newId targetId cursorIndex rest

/-- `MIN_DURATION` from `components/Timeline.tsx` line 32 (seconds). -/
def MIN_DURATION : ℚ := 1/2

/-- The three drag modes of the timeline interaction engine
(`'move' | 'resize-left' | 'resize-right'` in `Timeline.tsx`). -/
inductive DragAction
  | move
  | resizeLeft
  | resizeRight
deriving DecidableEq

/-- One pointer-move update of `handlePointerMove` (`Timeline.tsx` lines
95-106): given the drag mode, the timeline duration, the bounds captured at
pointer-down (`initialStart`, `initialEnd`) and the time delta derived from
the pointer, produce the `(newStart, newEnd)` written to the store. -/
def dragUpdate (action : DragAction) (duration initialStart initialEnd deltaTime : ℚ) :
    ℚ × ℚ :=
  match action with
  | .move =>
      let subDuration := initialEnd - initialStart
      let newStart := max 0 (min (duration - subDuration) (initialStart + deltaTime))
      (newStart, newStart + subDuration)
  | .resizeLeft =>
      (max 0 (min (initialEnd - MIN_DURATION) (initialStart + deltaTime)), initialEnd)
  | .resizeRight =>
      (initialStart, max (initialStart + MIN_DURATION) (min duration (initialEnd + deltaTime)))

/-- The `dragging` state captured at pointer-down (`Timeline.tsx` lines
24-30): chunk id, mode, pointer x anchor and the chunk bounds anchors. -/
structure DragState where
  id : String
  action : DragAction
  initialX : ℚ
  initialStart : ℚ
  initialEnd : ℚ

/-- `deltaTime = (deltaX / rect.width) * duration` (`Timeline.tsx` lines
89-90), with `deltaX = e.clientX - dragging.initialX`. -/
def deltaTimeOf (d : DragState) (trackWidth duration x : ℚ) : ℚ :=
  (x - d.initialX) / trackWidth * duration

/-- The bounds produced by one `pointermove` event at pointer position `x`
during the drag `d`: computed from the anchors only, never from the chunk's
current bounds. -/
def pointerMoveBounds (d : DragState) (trackWidth duration x : ℚ) : ℚ × ℚ :=
  dragUpdate d.action duration d.initialStart d.initialEnd (deltaTimeOf d trackWidth duration x)

/-- A sequence of committed drag updates on one chunk: each drag captures
the chunk's then-current bounds as its anchors (what pointer-down does) and
commits the bounds of its final pointer-move. -/
def applyDragSeq (duration : ℚ) (updates : List (DragAction × ℚ)) (bounds : ℚ × ℚ) :
    ℚ × ℚ :=
  updates.foldl (fun b u => dragUpdate u.1 duration b.1 b.2 u.2) bounds

/-- The active-chunk predicate of `drawFrame` (`VideoCanvas.tsx` lines
158-160): `t` lies in the closed interval `[start + offset, end + offset]`. -/
def isActiveAt (t offset : ℚ) (s : SubtitleChunk) : Bool :=
  decide (s.start + offset ≤ t) && decide (t ≤ s.«end» + offset)

/-- `subtitles.find(...)` in `drawFrame`: the first chunk in list order whose
offset-adjusted interval contains the current time; `none` means no caption
is drawn for this frame. -/
def findActiveSub (subs : List SubtitleChunk) (t offset : ℚ) : Option SubtitleChunk :=
  subs.find? (isActiveAt t offset)

/-- JavaScript `text.split(' ')`: split on single space characters, keeping
empty segments (so the result is never the empty list). -/
def splitOnSpace : List Char → List (List Char)
  | [] => [[]]
  | c :: rest =>
    match splitOnSpace rest with
    | [] => [[c]]
    | w :: ws => if c = ' ' then [] :: w :: ws else (c :: w) :: ws

/-- The word list of `drawText` (`VideoCanvas.tsx` lines 212-213): uppercase
the raw text if configured, then split on spaces. -/
def drawTextWords (uppercase : Bool) (text : List Char) : List (List Char) :=
  splitOnSpace (if uppercase then text.map Char.toUpper else text)

/-- The active word index of `drawText` (`VideoCanvas.tsx` lines 226-232):
`min(floor(elapsed / timePerWord), words.length - 1)` where
`timePerWord = (end - start) / words.length` and
`elapsed = time - (start + timingOffset)`. -/
def chunkActiveWordIndex (uppercase : Bool) (sub : SubtitleChunk) (timingOffset time : ℚ) :
    ℤ :=
  let words := drawTextWords uppercase sub.text
  let timePerWord := (sub.«end» - sub.start) / (words.length : ℚ)
  let elapsed := time - (sub.start + timingOffset)
  min ⌊elapsed / timePerWord⌋ ((words.length : ℤ) - 1)

/-- The animation variants (`AnimationStyle` in `types.ts`). -/
inductive AnimationStyle
  | NONE
  | POP
  | SLIDE_UP
  | FADE
  | BOUNCE
  | WORD_PRINT
deriving DecidableEq

/-- The per-variant container entry-animation duration (`VideoCanvas.tsx`
lines 242-264): pop `0.2 / animationSpeed`, slide-up `0.2 / animationSpeed`,
fade `0.3 / animationSpeed`, bounce `0.5 / animationSpeed`; `none` and
word-print have no container entry animation. -/
def containerEntryDuration (anim : AnimationStyle) (animationSpeed : ℚ) : Option ℚ :=
  match anim with
  | .POP => some (1/5 / animationSpeed)
  | .SLIDE_UP => some (1/5 / animationSpeed)
  | .FADE => some (3/10 / animationSpeed)
  | .BOUNCE => some (1/2 / animationSpeed)
  | _ => none

/-- The container animation phase `localT = min(elapsed / duration, 1)`
computed identically in each animated branch of `drawText`. -/
def containerLocalT (anim : AnimationStyle) (elapsed animationSpeed : ℚ) : Option ℚ :=
  (containerEntryDuration anim animationSpeed).map (fun d => min (elapsed / d) 1)

/-- The active-word pulse window of `drawText` (`VideoCanvas.tsx` line 293):
`const popDuration = 0.15;` — a constant, taking no account of
`animationSpeed` (the parameter is accepted here to state claims about it). -/
def wordPulseDuration (animationSpeed : ℚ) : ℚ := 3/20

/-- The active-word pulse phase (`VideoCanvas.tsx` lines 292-294):
`t = min(max(wordElapsed / popDuration, 0), 1)`. -/
def wordPulseT (wordElapsed animationSpeed : ℚ) : ℚ :=
  min (max (wordElapsed / wordPulseDuration animationSpeed) 0) 1

/-- `splitChunk` rejects (returns `none`) whenever one of the source's guard
conditions holds: caret at or before 0, caret at or past the end of the
text, or a trimmed half empty. -/
theorem splitChunk_eq_none_of_guard (newId : String) (c : SubtitleChunk) (k : ℤ)
    (hguard : k ≤ 0 ∨ (c.text.length : ℤ) ≤ k ∨
      trimChars (c.text.take k.toNat) = [] ∨ trimChars (c.text.drop k.toNat) = []) :
    splitChunk newId c k = none := by
  unfold splitChunk
  by_cases hb : k ≤ 0 ∨ (c.text.length : ℤ) ≤ k
  · rw [if_pos hb]
  · rw [if_neg hb]
    rcases hguard with h | h | h | h
    · exact absurd (Or.inl h) hb
    · exact absurd (Or.inr h) hb
    · simp [h]
    · simp [h]

/-- `splitChunk` succeeds when all guards pass, producing the left chunk
(original id, trimmed left half, `end` moved to the proportional split time)
and the right chunk (fresh id, trimmed right half, from the split time to
the original `end`). -/
theorem splitChunk_eq_some (newId : String) (c : SubtitleChunk) (k : ℤ)
    (h0 : 0 < k) (hL : k < (c.text.length : ℤ))
    (h1 : trimChars (c.text.take k.toNat) ≠ [])
    (h2 : trimChars (c.text.drop k.toNat) ≠ []) :
    splitChunk newId c k =
      some ({ c with text := trimChars (c.text.take k.toNat),
                     «end» := c.start + (c.«end» - c.start) * ((k : ℚ) / (c.text.length : ℚ)) },
            { id := newId, text := trimChars (c.text.drop k.toNat),
              start := c.start + (c.«end» - c.start) * ((k : ℚ) / (c.text.length : ℚ)),
              «end» := c.«end» }) := by
  unfold splitChunk
  rw [if_neg (by push_neg; exact ⟨h0, hL⟩)]
  dsimp only
  rw [if_neg (by push_neg; exact ⟨h1, h2⟩)]

/-- `handleSplitSubtitle` acts at the first chunk whose id matches,
replacing it in place by the outcome of `splitChunk`. -/
theorem handleSplitSubtitle_first (newId : String) (k : ℤ) (pre post : List SubtitleChunk)
    (c : SubtitleChunk) (hpre : ∀ s ∈ pre, s.id ≠ c.id) :
    handleSplitSubtitle newId c.id k (pre ++ c :: post) =
      pre ++ match splitChunk newId c k with
             | none => c :: post
             | some (a, b) => a :: b :: post := by
  induction pre with
  | nil =>
    simp [handleSplitSubtitle]
  | cons p ps ih =>
    have hp : p.id ≠ c.id := hpre p (List.mem_cons_self p ps)
    simp only [List.cons_append, handleSplitSubtitle, if_neg hp, List.append_eq]
    rw [ih (fun s hs => hpre s (List.mem_cons_of_mem p hs))]

/-- Claim C1, as stated, is false: splitting `"ab cd"` at caret 1 satisfies
every premise (0 < 1 < 5, both trimmed halves non-empty), the chunk is
replaced by the two chunks computed by the source, yet the left text joined
to the right text with a single space (`"a b cd"`) differs from the trimmed
original text (`"ab cd"`). -/
theorem split_roundTrip_cex :
    handleSplitSubtitle "n" "a" 1 [⟨"a", ['a', 'b', ' ', 'c', 'd'], 0, 1⟩] =
      [⟨"a", ['a'], 0, 1/5⟩, ⟨"n", ['b', ' ', 'c', 'd'], 1/5, 1⟩] ∧
    ['a'] ++ ' ' :: ['b', ' ', 'c', 'd'] ≠ trimChars ['a', 'b', ' ', 'c', 'd'] ∧
    (0 : ℤ) < 1 ∧ (1 : ℤ) < ((['a', 'b', ' ', 'c', 'd'] : List Char).length : ℤ) ∧
    trimChars (List.take (Int.toNat 1) ['a', 'b', ' ', 'c', 'd']) ≠ [] ∧
    trimChars (List.drop (Int.toNat 1) ['a', 'b', ' ', 'c', 'd']) ≠ [] := by
  refine ⟨?_, by decide, by decide, by decide, by decide, by decide⟩
  norm_num [handleSplitSubtitle, splitChunk, trimChars]
  rw [if_neg (by decide)]
  rfl

/-- Claim C1 (amended): for every chunk `c` (first with its id in the list)
and caret `k` with `0 < k < length(text)` and both trimmed halves non-empty,
`split` replaces `c` at its position with exactly two chunks: the left keeps
`c`'s id and start, its text is the trimmed left half and its `end` is the
proportional split time `c.start + (c.end - c.start) * (k / length(text))`;
the right gets the fresh id, the trimmed right half, starts at the split
time and ends at `c.end`.  (The original claim's clause that the two texts
joined by a single space reproduce the trimmed original text is dropped: it
fails whenever the caret is not at a single-space word boundary.) -/
theorem split_roundTrip_amended (pre post : List SubtitleChunk) (c : SubtitleChunk)
    (newId : String) (k : ℤ)
    (hpre : ∀ s ∈ pre, s.id ≠ c.id)
    (h0 : 0 < k) (hL : k < (c.text.length : ℤ))
    (h1 : trimChars (c.text.take k.toNat) ≠ [])
    (h2 : trimChars (c.text.drop k.toNat) ≠ []) :
    handleSplitSubtitle newId c.id k (pre ++ c :: post) =
      pre ++ { c with text := trimChars (c.text.take k.toNat),
                      «end» := c.start + (c.«end» - c.start) * ((k : ℚ) / (c.text.length : ℚ)) }
          :: { id := newId, text := trimChars (c.text.drop k.toNat),
               start := c.start + (c.«end» - c.start) * ((k : ℚ) / (c.text.length : ℚ)),
               «end» := c.«end» } :: post := by
  rw [handleSplitSubtitle_first newId k pre post c hpre,
    splitChunk_eq_some newId c k h0 hL h1 h2]

/-- Witness for the amended claim C1 at a concrete input: splitting
`"hi yo"` (caret 2) in a singleton list. -/
theorem split_roundTrip_amended_witness :
    handleSplitSubtitle "n" "a" 2 [⟨"a", ['h', 'i', ' ', 'y', 'o'], 0, 1⟩] =
      [⟨"a", ['h', 'i'], 0, 2/5⟩, ⟨"n", ['y', 'o'], 2/5, 1⟩] := by
  have h := split_roundTrip_amended [] [] ⟨"a", ['h', 'i', ' ', 'y', 'o'], 0, 1⟩ "n" 2
    (by simp) (by decide) (by decide) (by decide) (by decide)
  norm_num at h
  exact h

/-- Claim C9: if the caret is at or before 0, at or past the end of the
text, or either whitespace-trimmed half is empty, `split` leaves the chunk
list completely unchanged (silent no-op). -/
theorem split_noop (pre post : List SubtitleChunk) (c : SubtitleChunk) (newId : String)
    (k : ℤ) (hpre : ∀ s ∈ pre, s.id ≠ c.id)
    (hguard : k ≤ 0 ∨ (c.text.length : ℤ) ≤ k ∨
      trimChars (c.text.take k.toNat) = [] ∨ trimChars (c.text.drop k.toNat) = []) :
    handleSplitSubtitle newId c.id k (pre ++ c :: post) = pre ++ c :: post := by
  rw [handleSplitSubtitle_first newId k pre post c hpre,
    splitChunk_eq_none_of_guard newId c k hguard]

/-- Witness for claim C9: `split` with caret 0 on a concrete two-chunk list
is a no-op. -/
theorem split_noop_witness :
    handleSplitSubtitle "n" "b" 0
        [⟨"a", ['h', 'i'], 0, 1⟩, ⟨"b", ['y', 'o'], 1, 2⟩] =
      [⟨"a", ['h', 'i'], 0, 1⟩, ⟨"b", ['y', 'o'], 1, 2⟩] := by
  have h := split_noop [⟨"a", ['h', 'i'], 0, 1⟩] [] ⟨"b", ['y', 'o'], 1, 2⟩ "n" 0
    (by decide) (Or.inl le_rfl)
  simpa using h

/-- One drag update on a chunk with non-negative start and at least the
minimum duration yields again a non-negative start and at least the minimum
duration, and keeps `end ≤ duration` whenever it held before. -/
theorem dragUpdate_inv (a : DragAction) (D s e δ : ℚ)
    (hs : 0 ≤ s) (hd : s + MIN_DURATION ≤ e) :
    0 ≤ (dragUpdate a D s e δ).1 ∧
    (dragUpdate a D s e δ).1 + MIN_DURATION ≤ (dragUpdate a D s e δ).2 ∧
    (e ≤ D → (dragUpdate a D s e δ).2 ≤ D) := by
  have hmin : (0 : ℚ) < MIN_DURATION := by norm_num [MIN_DURATION]
  cases a with
  | move =>
    show 0 ≤ max 0 (min (D - (e - s)) (s + δ)) ∧
      max 0 (min (D - (e - s)) (s + δ)) + MIN_DURATION ≤
        max 0 (min (D - (e - s)) (s + δ)) + (e - s) ∧
      (e ≤ D → max 0 (min (D - (e - s)) (s + δ)) + (e - s) ≤ D)
    refine ⟨le_max_left 0 _, by linarith, fun heD => ?_⟩
    have h1 : max 0 (min (D - (e - s)) (s + δ)) ≤ D - (e - s) :=
      max_le (by linarith) (min_le_left _ _)
    linarith
  | resizeLeft =>
    show 0 ≤ max 0 (min (e - MIN_DURATION) (s + δ)) ∧
      max 0 (min (e - MIN_DURATION) (s + δ)) + MIN_DURATION ≤ e ∧ (e ≤ D → e ≤ D)
    have h1 : max 0 (min (e - MIN_DURATION) (s + δ)) ≤ e - MIN_DURATION :=
      max_le (by linarith) (min_le_left _ _)
    exact ⟨le_max_left 0 _, by linarith, fun h => h⟩
  | resizeRight =>
    show 0 ≤ s ∧ s + MIN_DURATION ≤ max (s + MIN_DURATION) (min D (e + δ)) ∧
      (e ≤ D → max (s + MIN_DURATION) (min D (e + δ)) ≤ D)
    exact ⟨hs, le_max_left _ _, fun heD => max_le (by linarith) (min_le_left _ _)⟩

/-- The invariant of `dragUpdate_inv` propagates through any sequence of
committed drag updates. -/
theorem dragSeq_inv (D : ℚ) (us : List (DragAction × ℚ)) (s e : ℚ)
    (hs : 0 ≤ s) (hd : s + MIN_DURATION ≤ e) :
    0 ≤ (applyDragSeq D us (s, e)).1 ∧
    (applyDragSeq D us (s, e)).1 + MIN_DURATION ≤ (applyDragSeq D us (s, e)).2 ∧
    (e ≤ D → (applyDragSeq D us (s, e)).2 ≤ D) := by
  induction us generalizing s e with
  | nil => exact ⟨hs, hd, fun h => h⟩
  | cons u us ih =>
    obtain ⟨h1, h2, h3⟩ := dragUpdate_inv u.1 D s e u.2 hs hd
    obtain ⟨g1, g2, g3⟩ := ih (dragUpdate u.1 D s e u.2).1 (dragUpdate u.1 D s e u.2).2 h1 h2
    exact ⟨g1, g2, fun heD => g3 (h3 heD)⟩

/-- Claim C2, as stated (for arbitrary chunks), is false: a chunk with
bounds `(0.1, 0.3)` — legal after a split, which enforces no minimum — still
has duration `0.3 < 0.5` after a `resize-left` drag update, because the
left clamp `max(0, ...)` overrides the `initialEnd - MIN_DURATION` bound
when the latter is negative. -/
theorem minDuration_cex :
    dragUpdate DragAction.resizeLeft 10 (1/10) (3/10) (-1) = (0, 3/10) ∧
    (dragUpdate DragAction.resizeLeft 10 (1/10) (3/10) (-1)).2 -
      (dragUpdate DragAction.resizeLeft 10 (1/10) (3/10) (-1)).1 < MIN_DURATION := by
  norm_num [dragUpdate, MIN_DURATION, min_def, max_def]

/-- Claim C2 (amended): for every chunk whose bounds satisfy the store
invariants `start ≥ 0` and `end - start ≥ MIN_DURATION` before the drags,
after any sequence of move / resize-left / resize-right drag updates the
chunk still satisfies `end - start ≥ MIN_DURATION` (= 0.5s). -/
theorem minDuration_after_drags (D : ℚ) (us : List (DragAction × ℚ)) (s e : ℚ)
    (hs : 0 ≤ s) (hd : MIN_DURATION ≤ e - s) :
    MIN_DURATION ≤ (applyDragSeq D us (s, e)).2 - (applyDragSeq D us (s, e)).1 := by
  obtain ⟨h1, h2, h3⟩ := dragSeq_inv D us s e hs (by linarith)
  linarith

/-- Witness for the amended claim C2: a move followed by a resize-left on
the chunk `(1, 2)` of a 10s timeline keeps duration at least 0.5s. -/
theorem minDuration_after_drags_witness :
    (0 : ℚ) ≤ 1 ∧ MIN_DURATION ≤ (2 : ℚ) - 1 ∧
    MIN_DURATION ≤
      (applyDragSeq 10 [(DragAction.move, 5), (DragAction.resizeLeft, -3)] (1, 2)).2 -
        (applyDragSeq 10 [(DragAction.move, 5), (DragAction.resizeLeft, -3)] (1, 2)).1 :=
  ⟨by norm_num, by norm_num [MIN_DURATION],
   minDuration_after_drags 10 [(DragAction.move, 5), (DragAction.resizeLeft, -3)] 1 2
     (by norm_num) (by norm_num [MIN_DURATION])⟩

/-- Claim C3, as stated (for every chunk), is false: on a 1s timeline the
chunk `(0.9, 1)` lies within `[0, D]`, yet a `resize-right` update (even
with pointer delta 0) writes `end = max(start + 0.5, min(D, ...)) = 1.4 > D`,
because the minimum-duration clamp is applied after, and so overrides, the
`end ≤ D` clamp. -/
theorem boundary_clamp_cex :
    (0 : ℚ) < 1 ∧ (0 : ℚ) ≤ 9/10 ∧ (1 : ℚ) ≤ 1 ∧
    dragUpdate DragAction.resizeRight 1 (9/10) 1 0 = (9/10, 7/5) ∧
    ¬((dragUpdate DragAction.resizeRight 1 (9/10) 1 0).2 ≤ 1) := by
  norm_num [dragUpdate, MIN_DURATION, min_def, max_def]

/-- Claim C3 (amended): for every chunk satisfying the store invariants
`0 ≤ start`, `end ≤ D` and `end - start ≥ MIN_DURATION`, every drag update
in any mode and with any pointer delta writes bounds with `start ≥ 0` and
`end ≤ D` (and `dragUpdate_inv` shows the invariants are preserved, so this
holds along any drag sequence). -/
theorem boundary_clamp_amended (a : DragAction) (D s e δ : ℚ) (hD : 0 < D)
    (hs : 0 ≤ s) (he : e ≤ D) (hd : s + MIN_DURATION ≤ e) :
    0 ≤ (dragUpdate a D s e δ).1 ∧ (dragUpdate a D s e δ).2 ≤ D := by
  obtain ⟨h1, h2, h3⟩ := dragUpdate_inv a D s e δ hs hd
  exact ⟨h1, h3 he⟩

/-- Witness for the amended claim C3: a far-right resize on the chunk
`(1, 2)` of a 10s timeline stays within `[0, 10]`. -/
theorem boundary_clamp_amended_witness :
    (0 : ℚ) < 10 ∧ (0 : ℚ) ≤ 1 ∧ (2 : ℚ) ≤ 10 ∧ (1 : ℚ) + MIN_DURATION ≤ 2 ∧
    (0 ≤ (dragUpdate DragAction.resizeRight 10 1 2 100).1 ∧
      (dragUpdate DragAction.resizeRight 10 1 2 100).2 ≤ 10) :=
  ⟨by norm_num, by norm_num, by norm_num, by norm_num [MIN_DURATION],
   boundary_clamp_amended DragAction.resizeRight 10 1 2 100 (by norm_num) (by norm_num)
     (by norm_num) (by norm_num [MIN_DURATION])⟩

/-- Any sequence of move-mode drags preserves the chunk's duration exactly. -/
theorem moveSeq_duration (D : ℚ) (deltas : List ℚ) (s e : ℚ) :
    (applyDragSeq D (deltas.map fun δ => (DragAction.move, δ)) (s, e)).2 -
      (applyDragSeq D (deltas.map fun δ => (DragAction.move, δ)) (s, e)).1 = e - s := by
  induction deltas generalizing s e with
  | nil => simp [applyDragSeq]
  | cons δ ds ih =>
    have hdur : (dragUpdate DragAction.move D s e δ).2 -
        (dragUpdate DragAction.move D s e δ).1 = e - s := by
      show (max 0 (min (D - (e - s)) (s + δ)) + (e - s)) -
        max 0 (min (D - (e - s)) (s + δ)) = e - s
      ring
    exact (ih (dragUpdate DragAction.move D s e δ).1
      (dragUpdate DragAction.move D s e δ).2).trans hdur

/-- Claim C5: a move-mode update computes
`newStart = clamp(anchorStart + deltaTime, 0, D - anchorDuration)` and
`newEnd = newStart + anchorDuration`, and consequently any sequence of move
drags preserves the chunk's duration exactly. -/
theorem move_clamp_and_duration (D s e : ℚ) (hD : 0 < D) (deltas : List ℚ) :
    (∀ δ : ℚ, dragUpdate DragAction.move D s e δ =
      (max 0 (min (s + δ) (D - (e - s))),
       max 0 (min (s + δ) (D - (e - s))) + (e - s))) ∧
    (applyDragSeq D (deltas.map fun δ => (DragAction.move, δ)) (s, e)).2 -
      (applyDragSeq D (deltas.map fun δ => (DragAction.move, δ)) (s, e)).1 = e - s := by
  refine ⟨fun δ => ?_, moveSeq_duration D deltas s e⟩
  show (max 0 (min (D - (e - s)) (s + δ)), max 0 (min (D - (e - s)) (s + δ)) + (e - s)) = _
  rw [min_comm]

/-- Witness for claim C5 at the spec's example: 10s timeline, chunk
`(2, 4)`, move drag with `deltaTime = +3`. -/
theorem move_clamp_witness :
    (0 : ℚ) < 10 ∧
    dragUpdate DragAction.move 10 2 4 3 =
      (max 0 (min ((2 : ℚ) + 3) (10 - (4 - 2))),
       max 0 (min ((2 : ℚ) + 3) (10 - (4 - 2))) + (4 - 2)) ∧
    (applyDragSeq 10 ([3].map fun δ => (DragAction.move, δ)) (2, 4)).2 -
      (applyDragSeq 10 ([3].map fun δ => (DragAction.move, δ)) (2, 4)).1 = 4 - 2 :=
  ⟨by norm_num, (move_clamp_and_duration 10 2 4 (by norm_num) [3]).1 3,
   (move_clamp_and_duration 10 2 4 (by norm_num) [3]).2⟩

/-- Claim C10: during one drag (fixed anchors captured at pointer-down),
processing a whole sequence of pointer positions yields exactly the bounds
of processing only the final position — each update is computed from the
anchors, never from the chunk's current bounds. -/
theorem drag_path_independent (d : DragState) (trackWidth D : ℚ) (b : ℚ × ℚ)
    (xs : List ℚ) (x : ℚ) :
    (xs ++ [x]).foldl (fun _ y => pointerMoveBounds d trackWidth D y) b =
      pointerMoveBounds d trackWidth D x := by
  induction xs generalizing b with
  | nil => rfl
  | cons a as ih => exact ih _

/-- Claim C4: the render step's selection returns `none` exactly when no
chunk's offset-adjusted closed interval contains `t` (nothing is drawn), and
returns `some c` exactly when `c`'s interval contains `t` and `c` is the
earliest such chunk in list order (every chunk before it fails the
predicate) — deterministic even for unsorted or overlapping input. -/
theorem active_chunk_selection (subs : List SubtitleChunk) (t offset : ℚ) :
    (findActiveSub subs t offset = none ↔
      ∀ s ∈ subs, ¬(s.start + offset ≤ t ∧ t ≤ s.«end» + offset)) ∧
    ∀ c : SubtitleChunk, (findActiveSub subs t offset = some c ↔
      ((c.start + offset ≤ t ∧ t ≤ c.«end» + offset) ∧
       ∃ pre suf, subs = pre ++ c :: suf ∧
         ∀ s ∈ pre, ¬(s.start + offset ≤ t ∧ t ≤ s.«end» + offset))) := by
  constructor
  · rw [findActiveSub, List.find?_eq_none]
    simp [isActiveAt]
  · intro c
    rw [findActiveSub, List.find?_eq_some]
    simp only [isActiveAt, Bool.and_eq_true, decide_eq_true_eq, Bool.not_eq_true',
      Bool.and_eq_false_iff, decide_eq_false_iff_not, not_le, not_and, List.append_eq]
    constructor
    · rintro ⟨⟨h1, h2⟩, pre, suf, rfl, h⟩
      refine ⟨⟨h1, h2⟩, pre, suf, rfl, fun s hs hle => ?_⟩
      rcases h s hs with hlt | hlt
      · exact absurd hle (not_le.mpr hlt)
      · exact hlt
    · rintro ⟨⟨h1, h2⟩, pre, suf, rfl, h⟩
      refine ⟨⟨h1, h2⟩, pre, suf, rfl, fun a ha => ?_⟩
      by_cases hle : a.start + offset ≤ t
      · exact Or.inr (h a ha hle)
      · exact Or.inl (not_le.mp hle)

/-- JavaScript `split(' ')` never yields an empty array (splitting the empty
string yields `[""]`), so the renderer's word count is always at least 1. -/
theorem splitOnSpace_ne_nil (s : List Char) : splitOnSpace s ≠ [] := by
  cases s with
  | nil => simp [splitOnSpace]
  | cons c rest =>
    simp only [splitOnSpace]
    cases splitOnSpace rest with
    | nil => simp
    | cons w ws => by_cases hc : c = ' ' <;> simp [hc]

/-- Unfolding of `chunkActiveWordIndex` with its let-bindings expanded. -/
theorem chunkActiveWordIndex_def (u : Bool) (sub : SubtitleChunk) (offset t : ℚ) :
    chunkActiveWordIndex u sub offset t =
      min ⌊(t - (sub.start + offset)) /
          ((sub.«end» - sub.start) / ((drawTextWords u sub.text).length : ℚ))⌋
        (((drawTextWords u sub.text).length : ℤ) - 1) := rfl

/-- Claim C6: while a chunk with `n ≥ 1` words is rendered (its
offset-adjusted interval contains `t`, and `end > start` per the data
model), the computed active word index
`min(floor(elapsed / timePerWord), n - 1)` coincides with
`clamp(floor(elapsed / timePerWord), 0, n - 1)` — the floor is never
negative there, so the missing lower clamp in the source is immaterial. -/
theorem active_word_index_clamped (u : Bool) (sub : SubtitleChunk) (offset t : ℚ)
    (hdur : sub.start < sub.«end»)
    (hl : sub.start + offset ≤ t) (hr : t ≤ sub.«end» + offset) :
    chunkActiveWordIndex u sub offset t =
      max 0 (min ⌊(t - (sub.start + offset)) /
          ((sub.«end» - sub.start) / ((drawTextWords u sub.text).length : ℚ))⌋
        (((drawTextWords u sub.text).length : ℤ) - 1)) := by
  have hn : 0 < (drawTextWords u sub.text).length :=
    List.length_pos.mpr (splitOnSpace_ne_nil _)
  have hnq : (0 : ℚ) < ((drawTextWords u sub.text).length : ℚ) := by exact_mod_cast hn
  have htpw : 0 < (sub.«end» - sub.start) / ((drawTextWords u sub.text).length : ℚ) :=
    div_pos (by linarith) hnq
  have hfl : 0 ≤ ⌊(t - (sub.start + offset)) /
      ((sub.«end» - sub.start) / ((drawTextWords u sub.text).length : ℚ))⌋ :=
    Int.floor_nonneg.mpr (div_nonneg (by linarith) htpw.le)
  have hn1 : (0 : ℤ) ≤ ((drawTextWords u sub.text).length : ℤ) - 1 := by
    have h1 : (1 : ℤ) ≤ ((drawTextWords u sub.text).length : ℤ) := by exact_mod_cast hn
    linarith
  rw [chunkActiveWordIndex_def, max_eq_right (le_min hfl hn1)]

/-- Witness for claim C6: the two-word chunk `"hi yo"` over `[0, 1]`,
rendered with no offset at `t = 1/2`. -/
theorem active_word_index_witness :
    chunkActiveWordIndex false ⟨"a", ['h', 'i', ' ', 'y', 'o'], 0, 1⟩ 0 (1/2) =
      max 0 (min ⌊((1 : ℚ)/2 - (0 + 0)) /
          ((1 - 0) / ((drawTextWords false ['h', 'i', ' ', 'y', 'o']).length : ℚ))⌋
        (((drawTextWords false ['h', 'i', ' ', 'y', 'o']).length : ℤ) - 1)) :=
  active_word_index_clamped false ⟨"a", ['h', 'i', ' ', 'y', 'o'], 0, 1⟩ 0 (1/2)
    (by norm_num) (by norm_num) (by norm_num)

/-- Claim C7, as stated, is false: with a positive timing offset larger than
`timePerWord` the index does not reach `n - 1` by the un-offset end time.
For the two-word chunk `"hi yo"` over `[0, 1]` with offset `0.6`, the time
`t = 1` is the chunk's `end`, lies inside the active interval
`[0.6, 1.6]`, yet the computed index is `0`, not `n - 1 = 1` (and by
monotonicity it is `0` throughout `t ≤ 1`). -/
theorem active_word_reach_cex :
    chunkActiveWordIndex false ⟨"a", ['h', 'i', ' ', 'y', 'o'], 0, 1⟩ (3/5) 1 = 0 ∧
    ((drawTextWords false ['h', 'i', ' ', 'y', 'o']).length : ℤ) - 1 = 1 ∧
    (0 : ℚ) < 1 ∧ (0 : ℚ) + 3/5 ≤ 1 ∧ (1 : ℚ) ≤ 1 + 3/5 := by
  refine ⟨?_, by decide, by norm_num, by norm_num, by norm_num⟩
  rw [chunkActiveWordIndex_def]
  rw [show (drawTextWords false ['h', 'i', ' ', 'y', 'o']).length = 2 from by decide]
  have h45 : ((1 : ℚ) - (0 + 3/5)) / (((1 : ℚ) - 0) / ((2 : ℕ) : ℚ)) = 4/5 := by norm_num
  rw [h45]
  have hfl : ⌊(4/5 : ℚ)⌋ = 0 := by
    rw [Int.floor_eq_zero_iff]
    constructor <;> norm_num
  rw [hfl]
  rfl

/-- Claim C7 (amended): for every rendered chunk (data invariant
`end > start`), the active word index is non-decreasing in `t`, and it
reaches `n - 1` at (hence, being monotone, at or before) the
offset-adjusted end time `end + offset` of the chunk's active interval.
(The original claim's un-offset deadline `t = end` holds only when the
timing offset is at most `timePerWord`.) -/
theorem active_word_monotone_amended (u : Bool) (sub : SubtitleChunk) (offset : ℚ)
    (hdur : sub.start < sub.«end») :
    (∀ t1 t2 : ℚ, t1 ≤ t2 →
      chunkActiveWordIndex u sub offset t1 ≤ chunkActiveWordIndex u sub offset t2) ∧
    chunkActiveWordIndex u sub offset (sub.«end» + offset) =
      ((drawTextWords u sub.text).length : ℤ) - 1 := by
  have hn : 0 < (drawTextWords u sub.text).length :=
    List.length_pos.mpr (splitOnSpace_ne_nil _)
  have hnq : (0 : ℚ) < ((drawTextWords u sub.text).length : ℚ) := by exact_mod_cast hn
  have htpw : 0 < (sub.«end» - sub.start) / ((drawTextWords u sub.text).length : ℚ) :=
    div_pos (by linarith) hnq
  constructor
  · intro t1 t2 h12
    rw [chunkActiveWordIndex_def, chunkActiveWordIndex_def]
    refine min_le_min (Int.floor_mono ?_) le_rfl
    exact (div_le_div_iff_of_pos_right htpw).mpr (by linarith)
  · rw [chunkActiveWordIndex_def]
    have he : (sub.«end» + offset) - (sub.start + offset) = sub.«end» - sub.start := by ring
    rw [he]
    have hd0 : sub.«end» - sub.start ≠ 0 := by linarith
    have hdiv : (sub.«end» - sub.start) /
        ((sub.«end» - sub.start) / ((drawTextWords u sub.text).length : ℚ)) =
        ((drawTextWords u sub.text).length : ℚ) := by
      rw [div_div_eq_mul_div, mul_comm, mul_div_assoc, div_self hd0, mul_one]
    rw [hdiv, Int.floor_natCast]
    exact min_eq_right (by omega)

/-- Witness for the amended claim C7: monotonicity instance and the value at
the offset-adjusted end for the chunk `"hi yo"` over `[0, 1]` with offset
`0.6`. -/
theorem active_word_monotone_witness :
    chunkActiveWordIndex false ⟨"a", ['h', 'i', ' ', 'y', 'o'], 0, 1⟩ (3/5) (1 + 3/5) =
      ((drawTextWords false ['h', 'i', ' ', 'y', 'o']).length : ℤ) - 1 :=
  (active_word_monotone_amended false ⟨"a", ['h', 'i', ' ', 'y', 'o'], 0, 1⟩ (3/5)
    (by norm_num)).2

/-- Claim C8, as stated, is false: the active-word pulse window is the
constant `0.15` in the source, not `0.15 / animationSpeed`.  At speed 2 the
window is unchanged, and the pulse phase at `wordElapsed = 1/20` is `1/3`,
not the `2/3` that a time-compressed window would give; the container entry
durations, by contrast, are divided by the speed as claimed. -/
theorem animation_speed_cex :
    wordPulseDuration 2 ≠ wordPulseDuration 1 / 2 ∧
    wordPulseT (1/20) 2 ≠ wordPulseT ((1/20) * 2) 1 ∧
    containerEntryDuration AnimationStyle.POP 2 = some ((1/5 : ℚ) / 2) := by
  refine ⟨by norm_num [wordPulseDuration], ?_, by norm_num [containerEntryDuration]⟩
  norm_num [wordPulseT, wordPulseDuration, min_def, max_def]

/-- Claim C8 (amended): for every animation variant and speed `s > 0` the
container entry durations (pop 0.2s, slide-up 0.2s, fade 0.3s, bounce 0.5s)
are divided by `s` — equivalently the entry phase at speed `s` and elapsed
`e` equals the phase at speed 1 and elapsed `e·s` — but the 0.15s
active-word pulse window is NOT scaled: it is the same for every speed. -/
theorem animation_speed_scaling_amended (s : ℚ) (hs : 0 < s) :
    (∀ anim : AnimationStyle, ∀ e : ℚ,
      containerLocalT anim e s = containerLocalT anim (e * s) 1) ∧
    (∀ anim : AnimationStyle,
      containerEntryDuration anim s = (containerEntryDuration anim 1).map (fun d => d / s)) ∧
    (∀ e speed : ℚ, wordPulseT e speed = wordPulseT e 1) := by
  refine ⟨fun anim e => ?_, fun anim => ?_, fun e speed => rfl⟩
  · cases anim <;> simp [containerLocalT, containerEntryDuration, div_div_eq_mul_div, div_one]
  · cases anim <;> simp [containerEntryDuration, div_one]

/-- Witness for the amended claim C8 at speed 2: the pop entry phase
compresses by the factor 2. -/
theorem animation_speed_scaling_witness :
    (0 : ℚ) < 2 ∧
    containerLocalT AnimationStyle.POP 1 2 = containerLocalT AnimationStyle.POP (1 * 2) 1 :=
  ⟨by norm_num, (animation_speed_scaling_amended 2 (by norm_num)).1 AnimationStyle.POP 1⟩
